import Mathlib

/-!
Verification of the best-submatrix search program (`matrix_solver.c`,
`matrix_solver_1.c`).

Modelling conventions.

* A matrix is a total function from (row, column) to the signed integer entry;
  the C program stores `int **matrix` and only ever reads indices inside the
  declared `N × M` bounds, so out-of-range values are irrelevant.

* The C code scores a window with a `double`: `log_sum`, the running sum of
  `log(abs(v))` over the qualifying (odd, non-zero) cells, or `-INFINITY` when
  no cell qualifies.  Every qualifying cell has `abs(v) ≥ 1`, and
  `ln a₁ + ... + ln aₙ = ln (a₁ * ... * aₙ)`, so each reachable score is either
  `-INFINITY` or `ln p` for the natural number `p` = product of the qualifying
  absolute values.  We therefore represent a score exactly as `Option ℕ`:
  `none` stands for `-INFINITY` and `some p` stands for `ln p`.  Since `ln` is
  strictly monotone on the positives, the `double` comparison `x > y` used by
  the program corresponds exactly to the comparison `LogScore.lt y x` defined
  below (the lemma `logScore_lt_iff_real_log` makes the correspondence with
  `Real.log` precise).

* The OpenMP pragmas distribute iterations of the (collapsed) two-level loop
  over threads; every per-window computation is independent and the per-thread
  accumulators are merged with the same strict `>` test as the in-loop update,
  so the single-thread elaboration — one left fold over the row-major list of
  candidate coordinates — computes the same score.  That sequential elaboration
  is what `find_best_submatrix_parallel` below denotes.

* The MPI `main` of `matrix_solver.c` is modelled by `coordinator`: rank 0
  searches rows `[0, N/2)`, rank 1 searches rows `[N/2, N)` (a shifted matrix),
  rank 1 unconditionally adds `N/2` to the `row` field of its result, and
  rank 0 keeps its own result only when its score is strictly greater
  (`result = (local > other) ? local : other`).
-/

/-- A matrix: total function from (row, column) to the integer entry.
Models the `int **matrix` of the C program. -/
abbrev Mat := ℕ → ℕ → ℤ

/-- Exact representation of a window score (`double` in the C code):
`none` is `-INFINITY`, `some p` is `ln p` where `p` is the product of the
absolute values of the qualifying cells. -/
abbrev LogScore := Option ℕ

/-- `is_odd` from the source: `abs(num) % 2 == 1`. -/
def is_odd (num : ℤ) : Bool := num.natAbs % 2 == 1

/-- The guard of the scoring loop body:
`is_odd(matrix[i][j]) && matrix[i][j] != 0`. -/
def qualifies (v : ℤ) : Bool := is_odd v && !(v == 0)

/-- The cells visited by the two nested loops of
`calculate_log_product_submatrix`
(`i` from `start_row` to `start_row + K - 1`, inner `j` likewise), in
row-major order. -/
def windowCells (start_row start_col K : ℕ) : List (ℕ × ℕ) :=
  (List.range K).flatMap (fun di => (List.range K).map (fun dj => (start_row + di, start_col + dj)))

/-- One iteration of the scoring loop body.  The accumulator holds
(`log_sum` as the exact product of qualifying absolute values, `odd_count`):
`log_sum += log(abs(v)); odd_count++` becomes multiplying the product by
`abs(v)` and incrementing the count. -/
def scanCell (m : Mat) (acc : ℕ × ℕ) (ij : ℕ × ℕ) : ℕ × ℕ :=
  if qualifies (m ij.1 ij.2) then (acc.1 * (m ij.1 ij.2).natAbs, acc.2 + 1) else acc

/-- `calculate_log_product_submatrix` from the source: scan the `K × K`
window, accumulate the (exactly represented) log-sum and the count of
qualifying cells, and return `-INFINITY` (`none`) when the count is zero.
`log_sum = 0.0` initially, i.e. the empty product `1`. -/
def calculate_log_product_submatrix (m : Mat) (start_row start_col K : ℕ) : LogScore :=
  let acc := (windowCells start_row start_col K).foldl (scanCell m) (1, 0)
  if acc.2 > 0 then some acc.1 else none

/-- The strict `<` order on scores used (flipped) by every
`current > best` comparison of the program: `-INFINITY` is below every
finite score, and finite scores `ln p`, `ln q` compare as `p`, `q`. -/
def LogScore.lt : LogScore → LogScore → Bool
  | none, none => false
  | none, some _ => true
  | some _, none => false
  | some p, some q => p < q

/-- `SubmatrixResult` from the source: row, col (of type `int`, the sentinel
is `-1`) and the best score found. -/
structure SubmatrixResult where
  row : ℤ
  col : ℤ
  max_log_product : LogScore
deriving DecidableEq

/-- The initial / "no qualifying window" result `{-1, -1, -INFINITY}`. -/
def sentinelResult : SubmatrixResult := ⟨-1, -1, none⟩

/-- `is_valid_submatrix` from the source: `i + K <= N && j + K <= M`. -/
def is_valid_submatrix (i j K N M : ℕ) : Bool := (i + K ≤ N) && (j + K ≤ M)

/-- The iteration domain of the collapsed two-level loop of
`find_best_submatrix_parallel`: `i` from `0` to `N - K`, `j` from `0` to
`M - K`, row-major.  With C `int` arithmetic a negative `N - K` runs zero
iterations; in ℕ, `N + 1 - K = 0` likewise yields the empty range. -/
def candidates (N M K : ℕ) : List (ℕ × ℕ) :=
  (List.range (N + 1 - K)).flatMap (fun i => (List.range (M + 1 - K)).map (fun j => (i, j)))

/-- The loop body of `find_best_submatrix_parallel`: check
`is_valid_submatrix`, score the window, and replace the running best
exactly when the new score is strictly greater. -/
def scanStep (m : Mat) (N M K : ℕ) (best : SubmatrixResult) (ij : ℕ × ℕ) : SubmatrixResult :=
  if is_valid_submatrix ij.1 ij.2 K N M then
    if LogScore.lt best.max_log_product (calculate_log_product_submatrix m ij.1 ij.2 K) then
      ⟨(ij.1 : ℤ), (ij.2 : ℤ), calculate_log_product_submatrix m ij.1 ij.2 K⟩
    else best
  else best

/-- `find_best_submatrix_parallel` from the source, as its sequential
elaboration: fold the strict-greater update over the candidate coordinates,
starting from `{-1, -1, -INFINITY}`. -/
def find_best_submatrix_parallel (m : Mat) (N M K : ℕ) : SubmatrixResult :=
  (candidates N M K).foldl (scanStep m N M K) sentinelResult

/-- The final merge in `main` of `matrix_solver.c`:
`result = (local_result.max_log_product > other_result.max_log_product) ? local_result : other_result`.
`a` is the primary's own result (`local_result`), `b` the secondary's
translated result (`other_result`). -/
def merge_results (a b : SubmatrixResult) : SubmatrixResult :=
  if LogScore.lt b.max_log_product a.max_log_product then a else b

/-- The two-process computation of `main` in `matrix_solver.c`:
rank 0 searches rows `[0, N/2)`; rank 1 searches rows `[N/2, N)` (received as
a block, i.e. the row-shifted matrix), then unconditionally executes
`local_result.row += half` before sending; rank 0 merges. -/
def coordinator (m : Mat) (N M K : ℕ) : SubmatrixResult :=
  let half := N / 2
  let local_result := find_best_submatrix_parallel m half M K
  let upper := find_best_submatrix_parallel (fun i j => m (half + i) j) (N - half) M K
  let other_result : SubmatrixResult := ⟨upper.row + (half : ℤ), upper.col, upper.max_log_product⟩
  merge_results local_result other_result

/-- `MAX_MATRIX_SIZE` from the source. -/
def MAX_MATRIX_SIZE : ℤ := 1000

/-- `validate_parameters` from the source (parameters are C `int`s read by
`scanf`, hence ℤ): returns 0 with an error message, or 1. -/
def validate_parameters (N M K : ℤ) : ℤ :=
  if N ≤ 0 ∨ M ≤ 0 ∨ K ≤ 0 then 0
  else if K > N ∨ K > M then 0
  else if N > MAX_MATRIX_SIZE ∨ M > MAX_MATRIX_SIZE then 0
  else 1

/-- How far `main` of `matrix_solver.c` gets before any allocation or
search: abort on a wrong MPI world size, abort on bad parameters, or run. -/
inductive MainOutcome where
  | abort_bad_workers
  | abort_bad_params
  | run
deriving DecidableEq

/-- The guard structure of `main` in `matrix_solver.c`: `size != 2` aborts
first; then `!validate_parameters(N, M, K)` aborts; only then is the matrix
allocated and searched. -/
def main_gate (size N M K : ℤ) : MainOutcome :=
  if size ≠ 2 then MainOutcome.abort_bad_workers
  else if validate_parameters N M K = 0 then MainOutcome.abort_bad_params
  else MainOutcome.run

/-- One cell of `generate_random_matrix`.  `s` is the stream of successive
`rand()` values (non-negative), `k` the index of the next unconsumed draw.
`matrix[i][j] = rand() % (MAX_VALUE - MIN_VALUE + 1) + MIN_VALUE`, i.e.
`rand() % 201 - 100`; then `if (matrix[i][j] % 2 == 0 && rand() % 3 == 0)
matrix[i][j] += 1` — the second `rand()` is consumed only when the value is
even (short-circuit `&&`).  Returns the entry and the next stream index. -/
def gen_cell (s : ℕ → ℕ) (k : ℕ) : ℤ × ℕ :=
  let v : ℤ := (s k % 201 : ℕ) - 100
  if v % 2 = 0 then (if s (k + 1) % 3 = 0 then v + 1 else v, k + 2) else (v, k + 1)

/-- The inner column loop of `generate_random_matrix`: `n` remaining cells
of one row, threading the stream index. -/
def gen_cells (s : ℕ → ℕ) : ℕ → ℕ → List ℤ × ℕ
  | 0, k => ([], k)
  | n + 1, k =>
    let c := gen_cell s k
    let rest := gen_cells s n c.2
    (c.1 :: rest.1, rest.2)

/-- The outer row loop of `generate_random_matrix`: `n` remaining rows of
`M` cells each, threading the stream index. -/
def gen_rows (s : ℕ → ℕ) : ℕ → ℕ → ℕ → List (List ℤ) × ℕ
  | 0, _, k => ([], k)
  | n + 1, M, k =>
    let r := gen_cells s M k
    let rest := gen_rows s n M r.2
    (r.1 :: rest.1, rest.2)

/-- `generate_random_matrix` from the source: fill the `N × M` matrix
row-major from the `rand()` stream `s` (the stream is the deterministic
sequence produced by the C library for the chosen `srand` seed;
`matrix_solver.c` fixes the seed to 42). -/
def generate_random_matrix (s : ℕ → ℕ) (N M : ℕ) : List (List ℤ) :=
  (gen_rows s N M 0).1

/-- Concrete matrix for the odd/zero scoring edge case: the `2 × 2` window
at the origin contains `0`, `-3`, `2`, `4`. -/
def exZeroOddMat : Mat := fun i j =>
  if i = 0 ∧ j = 0 then 0 else if i = 0 ∧ j = 1 then -3 else 2

/-- Concrete all-threes matrix used for counterexamples. -/
def exThreesMat : Mat := fun _ _ => 3

/-- Concrete all-even matrix used for counterexamples. -/
def exEvenMat : Mat := fun _ _ => 2

/-- Concrete `rand()` stream whose first draw is 200 (value `100`) and whose
second draw is divisible by 3, so the odd-biasing increment produces `101`. -/
def exStream : ℕ → ℕ := fun k => if k = 0 then 200 else 0

/-! ### Order lemmas for `LogScore.lt` -/

lemma LogScore.lt_irrefl (a : LogScore) : LogScore.lt a a = false := by
  cases a <;> simp [LogScore.lt]

lemma LogScore.lt_asymm {a b : LogScore} (h : LogScore.lt a b = true) :
    LogScore.lt b a = false := by
  cases a <;> cases b <;> simp_all [LogScore.lt] <;> omega

lemma LogScore.ge_trans {a b c : LogScore} (h1 : LogScore.lt a b = false)
    (h2 : LogScore.lt b c = false) : LogScore.lt a c = false := by
  cases a <;> cases b <;> cases c <;> simp_all [LogScore.lt] <;> omega

/-- `LogScore.lt` on finite scores agrees with the `double` comparison of the
program: `ln p < ln q` iff `p < q` (all reachable finite scores have `p ≥ 1`). -/
lemma logScore_lt_iff_real_log (p q : ℕ) (hp : 0 < p) (hq : 0 < q) :
    LogScore.lt (some p) (some q) = true ↔ Real.log p < Real.log q := by
  rw [Real.log_lt_log_iff (by exact_mod_cast hp) (by exact_mod_cast hq)]
  simp [LogScore.lt]

/-! ### Invariants of the search fold -/

lemma scanStep_ge_acc (m : Mat) (N M K : ℕ) (b : SubmatrixResult) (ij : ℕ × ℕ) :
    LogScore.lt (scanStep m N M K b ij).max_log_product b.max_log_product = false := by
  unfold scanStep
  split_ifs with h1 h2
  · exact LogScore.lt_asymm h2
  · exact LogScore.lt_irrefl _
  · exact LogScore.lt_irrefl _

lemma foldl_scanStep_ge_init (m : Mat) (N M K : ℕ) (l : List (ℕ × ℕ))
    (b : SubmatrixResult) :
    LogScore.lt (l.foldl (scanStep m N M K) b).max_log_product
      b.max_log_product = false := by
  induction l generalizing b with
  | nil => exact LogScore.lt_irrefl _
  | cons x xs ih =>
    rw [List.foldl_cons]
    exact LogScore.ge_trans (ih (scanStep m N M K b x)) (scanStep_ge_acc m N M K b x)

lemma foldl_scanStep_ge_mem (m : Mat) (N M K : ℕ) (l : List (ℕ × ℕ))
    (b : SubmatrixResult) (ij : ℕ × ℕ) (hmem : ij ∈ l)
    (hv : is_valid_submatrix ij.1 ij.2 K N M = true) :
    LogScore.lt (l.foldl (scanStep m N M K) b).max_log_product
      (calculate_log_product_submatrix m ij.1 ij.2 K) = false := by
  induction l generalizing b with
  | nil => cases hmem
  | cons x xs ih =>
    rw [List.foldl_cons]
    rcases List.mem_cons.mp hmem with h | h
    · subst h
      have hstep : LogScore.lt (scanStep m N M K b ij).max_log_product
          (calculate_log_product_submatrix m ij.1 ij.2 K) = false := by
        unfold scanStep
        rw [hv]
        simp only [if_true]
        split
        · exact LogScore.lt_irrefl _
        · next h2 => exact Bool.eq_false_iff.mpr h2
      exact LogScore.ge_trans (foldl_scanStep_ge_init m N M K xs (scanStep m N M K b ij)) hstep
    · exact ih (scanStep m N M K b x) h

lemma foldl_scanStep_shape (m : Mat) (N M K : ℕ) (l : List (ℕ × ℕ))
    (b : SubmatrixResult) :
    l.foldl (scanStep m N M K) b = b ∨
    ∃ ij ∈ l, is_valid_submatrix ij.1 ij.2 K N M = true ∧
      l.foldl (scanStep m N M K) b =
        ⟨(ij.1 : ℤ), (ij.2 : ℤ), calculate_log_product_submatrix m ij.1 ij.2 K⟩ := by
  induction l generalizing b with
  | nil => exact Or.inl rfl
  | cons x xs ih =>
    rw [List.foldl_cons]
    rcases ih (scanStep m N M K b x) with h | ⟨ij, hmem, hv, heq⟩
    · rw [h]
      unfold scanStep
      split_ifs with h1 h2
      · exact Or.inr ⟨x, List.mem_cons_self x xs, h1, rfl⟩
      · exact Or.inl rfl
      · exact Or.inl rfl
    · exact Or.inr ⟨ij, List.mem_cons_of_mem x hmem, hv, heq⟩

lemma mem_candidates {i j N M K : ℕ} (hi : i < N + 1 - K) (hj : j < M + 1 - K) :
    (i, j) ∈ candidates N M K := by
  simp only [candidates, List.mem_flatMap, List.mem_map, List.mem_range]
  exact ⟨i, hi, j, hj, rfl⟩

lemma candidates_bounds {ij : ℕ × ℕ} {N M K : ℕ} (h : ij ∈ candidates N M K) :
    ij.1 < N + 1 - K ∧ ij.2 < M + 1 - K := by
  simp only [candidates, List.mem_flatMap, List.mem_map, List.mem_range] at h
  obtain ⟨i, hi, j, hj, heq⟩ := h
  subst heq
  exact ⟨hi, hj⟩

/-! ### The scoring function as a filter over the window cells -/

lemma foldl_scanCell (m : Mat) (l : List (ℕ × ℕ)) (p n : ℕ) :
    l.foldl (scanCell m) (p, n) =
      (p * ((l.filter (fun ij => qualifies (m ij.1 ij.2))).map
          (fun ij => (m ij.1 ij.2).natAbs)).prod,
       n + (l.filter (fun ij => qualifies (m ij.1 ij.2))).length) := by
  induction l generalizing p n with
  | nil => simp
  | cons x xs ih =>
    by_cases hq : qualifies (m x.1 x.2) = true
    · rw [List.foldl_cons]
      show xs.foldl (scanCell m) (scanCell m (p, n) x) = _
      rw [show scanCell m (p, n) x = (p * (m x.1 x.2).natAbs, n + 1) by
        simp [scanCell, hq]]
      rw [ih]
      simp only [List.filter_cons, hq, if_true, List.map_cons, List.prod_cons,
        List.length_cons, Prod.mk.injEq]
      exact ⟨by ring, by omega⟩
    · rw [List.foldl_cons]
      show xs.foldl (scanCell m) (scanCell m (p, n) x) = _
      rw [show scanCell m (p, n) x = (p, n) by simp [scanCell, hq]]
      rw [ih]
      simp only [List.filter_cons, hq, if_false, Bool.false_eq_true]

lemma calculate_eq_filter (m : Mat) (r c K : ℕ) :
    calculate_log_product_submatrix m r c K =
      (if ((windowCells r c K).filter (fun ij => qualifies (m ij.1 ij.2))) = [] then none
       else some ((((windowCells r c K).filter (fun ij => qualifies (m ij.1 ij.2))).map
         (fun ij => (m ij.1 ij.2).natAbs)).prod)) := by
  unfold calculate_log_product_submatrix
  rw [foldl_scanCell]
  by_cases h : (windowCells r c K).filter (fun ij => qualifies (m ij.1 ij.2)) = []
  · simp [h]
  · have hlen : 0 < ((windowCells r c K).filter (fun ij => qualifies (m ij.1 ij.2))).length :=
      List.length_pos.mpr h
    simp [h, hlen]

lemma qualifies_natAbs_ne_zero {v : ℤ} (h : qualifies v = true) : v.natAbs ≠ 0 := by
  simp only [qualifies, is_odd, Bool.and_eq_true, beq_iff_eq, Bool.not_eq_true',
    beq_eq_false_iff_ne, ne_eq] at h
  omega

lemma real_log_list_prod (l : List ℕ) (h : ∀ x ∈ l, x ≠ 0) :
    Real.log (l.prod : ℝ) = (l.map (fun x : ℕ => Real.log (x : ℝ))).sum := by
  induction l with
  | nil => simp
  | cons x xs ih =>
    have hx : (x : ℝ) ≠ 0 := by
      exact_mod_cast h x (List.mem_cons_self x xs)
    have hxs : ((xs.prod : ℕ) : ℝ) ≠ 0 := by
      have : xs.prod ≠ 0 := by
        intro hz
        exact h 0 (List.mem_cons_of_mem x (List.prod_eq_zero_iff.mp hz)) rfl
      exact_mod_cast this
    simp only [List.prod_cons, List.map_cons, List.sum_cons]
    rw [Nat.cast_mul, Real.log_mul hx hxs, ih (fun y hy => h y (List.mem_cons_of_mem _ hy))]

/-! ### Windows of an all-even matrix score `-INFINITY` -/

lemma windowCells_bounds {r c K : ℕ} {ij : ℕ × ℕ} (h : ij ∈ windowCells r c K) :
    r ≤ ij.1 ∧ ij.1 < r + K ∧ c ≤ ij.2 ∧ ij.2 < c + K := by
  simp only [windowCells, List.mem_flatMap, List.mem_map, List.mem_range] at h
  obtain ⟨di, hdi, dj, hdj, heq⟩ := h
  subst heq
  simp only []
  omega

lemma calculate_none_of_even (m : Mat) (r c K : ℕ)
    (h : ∀ ij ∈ windowCells r c K, m ij.1 ij.2 % 2 = 0) :
    calculate_log_product_submatrix m r c K = none := by
  rw [calculate_eq_filter]
  have hf : (windowCells r c K).filter (fun ij => qualifies (m ij.1 ij.2)) = [] := by
    rw [List.filter_eq_nil_iff]
    intro ij hij
    have hev := h ij hij
    simp only [qualifies, is_odd, Bool.and_eq_true, beq_iff_eq, Bool.not_eq_true',
      beq_eq_false_iff_ne, ne_eq, not_and]
    intro hodd
    omega
  simp [hf]

lemma foldl_scanStep_keeps_none (m : Mat) (N M K : ℕ) (l : List (ℕ × ℕ))
    (b : SubmatrixResult) (hb : b.max_log_product = none)
    (h : ∀ ij ∈ l, is_valid_submatrix ij.1 ij.2 K N M = true →
      calculate_log_product_submatrix m ij.1 ij.2 K = none) :
    l.foldl (scanStep m N M K) b = b := by
  induction l with
  | nil => rfl
  | cons x xs ih =>
    have hstep : scanStep m N M K b x = b := by
      unfold scanStep
      split_ifs with h1 h2
      · rw [hb, h x (List.mem_cons_self x xs) h1] at h2
        simp [LogScore.lt] at h2
      · rfl
      · rfl
    rw [List.foldl_cons, hstep]
    exact ih (fun ij hij hv => h ij (List.mem_cons_of_mem x hij) hv)

lemma find_best_sentinel_of_even (m : Mat) (N M K : ℕ)
    (h : ∀ i < N, ∀ j < M, m i j % 2 = 0) :
    find_best_submatrix_parallel m N M K = sentinelResult := by
  unfold find_best_submatrix_parallel
  apply foldl_scanStep_keeps_none
  · rfl
  · intro ij _ hv
    apply calculate_none_of_even
    intro cell hcell
    have hb := windowCells_bounds hcell
    have hvb : ij.1 + K ≤ N ∧ ij.2 + K ≤ M := by
      simpa only [is_valid_submatrix, Bool.and_eq_true, decide_eq_true_eq] using hv
    exact h cell.1 (by omega) cell.2 (by omega)

/-! ### Generator lemmas -/

lemma gen_cell_range (s : ℕ → ℕ) (k : ℕ) :
    -100 ≤ (gen_cell s k).1 ∧ (gen_cell s k).1 ≤ 101 := by
  have h1 : s k % 201 < 201 := Nat.mod_lt _ (by omega)
  simp only [gen_cell]
  split_ifs <;> dsimp only <;> omega

lemma gen_cells_range (s : ℕ → ℕ) (n : ℕ) :
    ∀ k, ∀ v ∈ (gen_cells s n k).1, -100 ≤ v ∧ v ≤ 101 := by
  induction n with
  | zero => intro k v hv; simp [gen_cells] at hv
  | succ n ih =>
    intro k v hv
    simp only [gen_cells, List.mem_cons] at hv
    rcases hv with rfl | hv
    · exact gen_cell_range s k
    · exact ih _ v hv

lemma gen_rows_range (s : ℕ → ℕ) (n M : ℕ) :
    ∀ k, ∀ row ∈ (gen_rows s n M k).1, ∀ v ∈ row, -100 ≤ v ∧ v ≤ 101 := by
  induction n with
  | zero => intro k row hrow; simp [gen_rows] at hrow
  | succ n ih =>
    intro k row hrow
    simp only [gen_rows, List.mem_cons] at hrow
    rcases hrow with rfl | hrow
    · exact gen_cells_range s M k
    · exact ih _ row hrow

lemma gen_cell_idx (s : ℕ → ℕ) (k : ℕ) :
    k + 1 ≤ (gen_cell s k).2 ∧ (gen_cell s k).2 ≤ k + 2 := by
  simp only [gen_cell]
  split_ifs <;> dsimp only <;> omega

lemma gen_cell_agree {s₁ s₂ : ℕ → ℕ} (k : ℕ)
    (h : ∀ i, k ≤ i → i < k + 2 → s₁ i = s₂ i) :
    gen_cell s₁ k = gen_cell s₂ k := by
  unfold gen_cell
  rw [h k (Nat.le_refl k) (by omega), h (k + 1) (by omega) (by omega)]

lemma gen_cells_idx (s : ℕ → ℕ) (n : ℕ) :
    ∀ k, k ≤ (gen_cells s n k).2 ∧ (gen_cells s n k).2 ≤ k + 2 * n := by
  induction n with
  | zero => intro k; simp [gen_cells]
  | succ n ih =>
    intro k
    simp only [gen_cells]
    have h1 := gen_cell_idx s k
    have h2 := ih (gen_cell s k).2
    omega

lemma gen_cells_agree {s₁ s₂ : ℕ → ℕ} (n : ℕ) :
    ∀ k, (∀ i, k ≤ i → i < k + 2 * n → s₁ i = s₂ i) →
      gen_cells s₁ n k = gen_cells s₂ n k := by
  induction n with
  | zero => intro k _; rfl
  | succ n ih =>
    intro k h
    have hc : gen_cell s₁ k = gen_cell s₂ k :=
      gen_cell_agree k (fun i h1 h2 => h i h1 (by omega))
    have hk := gen_cell_idx s₂ k
    simp only [gen_cells]
    rw [hc, ih (gen_cell s₂ k).2 (fun i h1 h2 => h i (by omega) (by omega))]

lemma gen_rows_idx (s : ℕ → ℕ) (n M : ℕ) :
    ∀ k, k ≤ (gen_rows s n M k).2 ∧ (gen_rows s n M k).2 ≤ k + 2 * (n * M) := by
  induction n with
  | zero => intro k; simp [gen_rows]
  | succ n ih =>
    intro k
    simp only [gen_rows, Nat.succ_mul]
    have h1 := gen_cells_idx s M k
    have h2 := ih (gen_cells s M k).2
    omega

lemma gen_rows_agree {s₁ s₂ : ℕ → ℕ} (n M : ℕ) :
    ∀ k, (∀ i, k ≤ i → i < k + 2 * (n * M) → s₁ i = s₂ i) →
      gen_rows s₁ n M k = gen_rows s₂ n M k := by
  induction n with
  | zero => intro k _; rfl
  | succ n ih =>
    intro k h
    have hm : (n + 1) * M = n * M + M := by ring
    have hc : gen_cells s₁ M k = gen_cells s₂ M k :=
      gen_cells_agree M k (fun i h1 h2 => h i h1 (by omega))
    have hk := gen_cells_idx s₂ M k
    simp only [gen_rows]
    rw [hc, ih (gen_cells s₂ M k).2 (fun i h1 h2 => h i (by omega) (by omega))]

/-! ### Claim theorems -/

/-- Claim C2: optimality of the local search.  For every matrix, for
`1 ≤ K ≤ min(N, M)` and every valid window top-left `(i, j)` with
`i ≤ N - K` and `j ≤ M - K`, the score returned by
`find_best_submatrix_parallel` is not below the score of the window at
`(i, j)` computed by `calculate_log_product_submatrix` (the exhaustive
sequential re-scoring), i.e. the returned score is ≥ every window score. -/
theorem find_best_submatrix_optimal (m : Mat) (N M K i j : ℕ)
    (hK : 1 ≤ K) (hKN : K ≤ N) (hKM : K ≤ M) (hi : i ≤ N - K) (hj : j ≤ M - K) :
    LogScore.lt (find_best_submatrix_parallel m N M K).max_log_product
      (calculate_log_product_submatrix m i j K) = false := by
  have hmem : (i, j) ∈ candidates N M K := mem_candidates (by omega) (by omega)
  have hv : is_valid_submatrix i j K N M = true := by
    simp only [is_valid_submatrix, Bool.and_eq_true, decide_eq_true_eq]
    omega
  exact foldl_scanStep_ge_mem m N M K (candidates N M K) sentinelResult (i, j) hmem hv

/-- Witness for C2 at a concrete input: `N = M = K = 1`, all-threes matrix,
window `(0, 0)`. -/
theorem find_best_submatrix_optimal_witness :
    LogScore.lt (find_best_submatrix_parallel exThreesMat 1 1 1).max_log_product
      (calculate_log_product_submatrix exThreesMat 0 0 1) = false :=
  find_best_submatrix_optimal exThreesMat 1 1 1 0 0 (by decide) (by decide) (by decide)
    (by decide) (by decide)

/-- Claim C8: empty search domain.  When `N < K` or `M < K` the collapsed
loop of `find_best_submatrix_parallel` enumerates no window (the candidate
list is empty) and the function returns the sentinel `{-1, -1, -INFINITY}`. -/
theorem find_best_empty_domain (m : Mat) (N M K : ℕ) (h : N < K ∨ M < K) :
    candidates N M K = [] ∧ find_best_submatrix_parallel m N M K = sentinelResult := by
  have hc : candidates N M K = [] := by
    unfold candidates
    rcases h with h | h
    · rw [show N + 1 - K = 0 by omega]
      rfl
    · rw [show M + 1 - K = 0 by omega]
      simp
  refine ⟨hc, ?_⟩
  unfold find_best_submatrix_parallel
  rw [hc, List.foldl_nil]

/-- Witness for C8 at a concrete input: a `1 × 1` matrix with `K = 2`. -/
theorem find_best_empty_domain_witness :
    candidates 1 1 2 = [] ∧
    find_best_submatrix_parallel exThreesMat 1 1 2 = sentinelResult :=
  find_best_empty_domain exThreesMat 1 1 2 (Or.inl (by decide))

/-- Claim C9: configuration-error rejection.  `validate_parameters` returns
`0` exactly when `N ≤ 0 ∨ M ≤ 0 ∨ K ≤ 0 ∨ K > N ∨ K > M ∨ N > 1000 ∨
M > 1000` and returns `1` otherwise; in `main` a world size other than 2
aborts before anything else, and the computation runs exactly when the size
is 2 and validation succeeds. -/
theorem validate_parameters_spec (size N M K : ℤ) :
    (validate_parameters N M K = 0 ↔
      (N ≤ 0 ∨ M ≤ 0 ∨ K ≤ 0 ∨ K > N ∨ K > M ∨ N > 1000 ∨ M > 1000)) ∧
    (validate_parameters N M K = 1 ↔
      ¬(N ≤ 0 ∨ M ≤ 0 ∨ K ≤ 0 ∨ K > N ∨ K > M ∨ N > 1000 ∨ M > 1000)) ∧
    (size ≠ 2 → main_gate size N M K = MainOutcome.abort_bad_workers) ∧
    (main_gate size N M K = MainOutcome.run ↔
      size = 2 ∧ validate_parameters N M K = 1) := by
  unfold main_gate validate_parameters MAX_MATRIX_SIZE
  split_ifs <;> simp_all <;> omega

/-- Witness for C9 at concrete inputs: world size 3 aborts;
`(N, M, K) = (1, 1, 1)` validates. -/
theorem validate_parameters_spec_witness :
    main_gate 3 1 1 1 = MainOutcome.abort_bad_workers :=
  (validate_parameters_spec 3 1 1 1).2.2.1 (by decide)

/-- Claim C10 (implicit): witness validity.  For `1 ≤ K ≤ min(N, M)`, a
non-sentinel result of `find_best_submatrix_parallel` carries coordinates of
a valid window (`0 ≤ row ≤ N - K`, `0 ≤ col ≤ M - K`; naturals `i`, `j`
witness the non-negativity) whose score, recomputed by
`calculate_log_product_submatrix`, is exactly the reported score. -/
theorem find_best_result_valid (m : Mat) (N M K : ℕ)
    (hK : 1 ≤ K) (hKN : K ≤ N) (hKM : K ≤ M)
    (hns : find_best_submatrix_parallel m N M K ≠ sentinelResult) :
    ∃ i j : ℕ, i ≤ N - K ∧ j ≤ M - K ∧
      find_best_submatrix_parallel m N M K =
        ⟨(i : ℤ), (j : ℤ), calculate_log_product_submatrix m i j K⟩ := by
  rcases foldl_scanStep_shape m N M K (candidates N M K) sentinelResult with
    h | ⟨ij, hmem, hv, heq⟩
  · exact absurd h hns
  · have hb := candidates_bounds hmem
    exact ⟨ij.1, ij.2, by omega, by omega, heq⟩

/-- Witness for C10 at a concrete input: `N = M = K = 1`, all-threes
matrix. -/
theorem find_best_result_valid_witness :
    ∃ i j : ℕ, i ≤ 1 - 1 ∧ j ≤ 1 - 1 ∧
      find_best_submatrix_parallel exThreesMat 1 1 1 =
        ⟨(i : ℤ), (j : ℤ), calculate_log_product_submatrix exThreesMat i j 1⟩ :=
  find_best_result_valid exThreesMat 1 1 1 (by decide) (by decide) (by decide) (by decide)

/-- Claim C3: scoring-function correctness.  `calculate_log_product_submatrix`
returns the exactly-represented sum of `ln |v|` over precisely the window
cells whose value is odd and non-zero: it returns `none` (`-INFINITY`) iff no
cell qualifies, and otherwise `some p` with `p` the product of the qualifying
absolute values, where `Real.log p` equals the sum of `Real.log |v|` over the
qualifying cells.  A cell with value `0` never qualifies, and the window
containing `0` and `-3` (matrix `exZeroOddMat`) scores `some 3`, i.e.
`ln 3`. -/
theorem calculate_log_product_spec :
    (∀ (m : Mat) (r c K : ℕ),
      calculate_log_product_submatrix m r c K =
        (if ((windowCells r c K).filter (fun ij => qualifies (m ij.1 ij.2))) = [] then none
         else some ((((windowCells r c K).filter (fun ij => qualifies (m ij.1 ij.2))).map
           (fun ij => (m ij.1 ij.2).natAbs)).prod))) ∧
    (∀ (m : Mat) (r c K : ℕ) (p : ℕ),
      calculate_log_product_submatrix m r c K = some p →
        Real.log (p : ℝ) =
          (((windowCells r c K).filter (fun ij => qualifies (m ij.1 ij.2))).map
            (fun ij => Real.log (((m ij.1 ij.2).natAbs : ℕ) : ℝ))).sum) ∧
    qualifies 0 = false ∧
    calculate_log_product_submatrix exZeroOddMat 0 0 2 = some 3 := by
  refine ⟨calculate_eq_filter, ?_, by decide, by decide⟩
  intro m r c K p hp
  rw [calculate_eq_filter] at hp
  by_cases h : (windowCells r c K).filter (fun ij => qualifies (m ij.1 ij.2)) = []
  · rw [if_pos h] at hp
    cases hp
  · rw [if_neg h] at hp
    have hp2 := Option.some.inj hp
    subst hp2
    rw [real_log_list_prod]
    · rw [List.map_map]
      rfl
    · intro x hx
      rcases List.mem_map.mp hx with ⟨ij, hij, rfl⟩
      exact qualifies_natAbs_ne_zero ((List.mem_filter.mp hij).2)

/-- Witness for C3 at the odd/zero edge case: the score `some 3` of the
window containing `0` and `-3` is `ln 3` = sum of `ln |v|` over the single
qualifying cell. -/
theorem calculate_log_product_spec_witness :
    Real.log ((3 : ℕ) : ℝ) =
      (((windowCells 0 0 2).filter (fun ij => qualifies (exZeroOddMat ij.1 ij.2))).map
        (fun ij => Real.log (((exZeroOddMat ij.1 ij.2).natAbs : ℕ) : ℝ))).sum :=
  calculate_log_product_spec.2.1 exZeroOddMat 0 0 2 3 (by decide)

/-- Claim C4 as stated is false on the code: for the all-even matrix
`exEvenMat` with `N = M = 2`, `K = 1`, the two-worker coordinated search does
NOT return the sentinel triple `{-1, -1, -INFINITY}`: rank 1 executes
`local_result.row += half` even on the sentinel, and the `-INFINITY` tie is
resolved in favour of rank 1's result, yielding `{0, -1, -INFINITY}`. -/
theorem sentinel_coordinator_counterexample :
    (∀ i < 2, ∀ j < 2, exEvenMat i j % 2 = 0) ∧
    coordinator exEvenMat 2 2 1 ≠ sentinelResult ∧
    coordinator exEvenMat 2 2 1 = ⟨0, -1, none⟩ := by
  refine ⟨by decide, by decide, by decide⟩

/-- Claim C4 (amended): on a matrix whose in-range entries are all even (in
particular all zero), the local search returns exactly `{-1, -1, -INFINITY}`,
while the two-worker coordinated computation returns
`{N/2 - 1, -1, -INFINITY}`: the secondary translates the sentinel row `-1`
by `+N/2` and the tie of two `-INFINITY` scores keeps the secondary's
result.  (The program still prints "no valid submatrix" because
`col = -1`.) -/
theorem sentinel_results_of_even (m : Mat) (N M K : ℕ)
    (h : ∀ i < N, ∀ j < M, m i j % 2 = 0) :
    find_best_submatrix_parallel m N M K = sentinelResult ∧
    coordinator m N M K = ⟨((N / 2 : ℕ) : ℤ) - 1, -1, none⟩ := by
  have hloc := find_best_sentinel_of_even m (N / 2) M K
      (fun i hi j hj => h i (by omega) j hj)
  have hup := find_best_sentinel_of_even (fun i j => m (N / 2 + i) j) (N - N / 2) M K
      (fun i hi j hj => h (N / 2 + i) (by omega) j hj)
  have hall := find_best_sentinel_of_even m N M K h
  refine ⟨hall, ?_⟩
  have hc : coordinator m N M K =
      merge_results (find_best_submatrix_parallel m (N / 2) M K)
        ⟨(find_best_submatrix_parallel (fun i j => m (N / 2 + i) j) (N - N / 2) M K).row
            + ((N / 2 : ℕ) : ℤ),
         (find_best_submatrix_parallel (fun i j => m (N / 2 + i) j) (N - N / 2) M K).col,
         (find_best_submatrix_parallel (fun i j => m (N / 2 + i) j) (N - N / 2) M K).max_log_product⟩ :=
    rfl
  rw [hc, hloc, hup]
  simp only [merge_results, sentinelResult, LogScore.lt, Bool.false_eq_true, if_false,
    SubmatrixResult.mk.injEq]
  exact ⟨by omega, trivial, trivial⟩

/-- Witness for the amended C4 at a concrete input: the all-even `2 × 2`
matrix with `K = 1`. -/
theorem sentinel_results_of_even_witness :
    find_best_submatrix_parallel exEvenMat 2 2 1 = sentinelResult ∧
    coordinator exEvenMat 2 2 1 = ⟨((2 / 2 : ℕ) : ℤ) - 1, -1, none⟩ :=
  sentinel_results_of_even exEvenMat 2 2 1 (by decide)

/-- Claim C5 as stated is false on the code: in the coordinator's final
merge, the primary's own result is the one that exists first (it is computed
before the secondary's result arrives), yet on equal scores the ternary
`(local > other) ? local : other` keeps the SECONDARY's result.  Concretely:
`N = 2, M = 1, K = 1` on the all-threes matrix; the primary's result (which
is `find_best_submatrix_parallel exThreesMat 1 1 1`, since `half = 1`) is
`{0, 0, ln 3}`, the secondary's translated result is `{1, 0, ln 3}`, the
scores tie, and the merged result is the secondary's, not the
first-evaluated one. -/
theorem merge_first_seen_counterexample :
    (find_best_submatrix_parallel exThreesMat 1 1 1).max_log_product =
      (coordinator exThreesMat 2 1 1).max_log_product ∧
    find_best_submatrix_parallel exThreesMat 1 1 1 = ⟨0, 0, some 3⟩ ∧
    coordinator exThreesMat 2 1 1 = ⟨1, 0, some 3⟩ ∧
    coordinator exThreesMat 2 1 1 ≠ find_best_submatrix_parallel exThreesMat 1 1 1 := by
  refine ⟨by decide, by decide, by decide, by decide⟩

/-- Claim C5 (amended): in the coordinator's final merge
`merge_results local other`, a strictly greater score always wins; when the
two scores are EQUAL the merge keeps the SECOND operand — the secondary
worker's translated result — (last-seen precedence), and in no case is a
tie broken by comparing coordinates. -/
theorem merge_results_rule (a b : SubmatrixResult) :
    (LogScore.lt b.max_log_product a.max_log_product = true → merge_results a b = a) ∧
    (LogScore.lt a.max_log_product b.max_log_product = true → merge_results a b = b) ∧
    (a.max_log_product = b.max_log_product → merge_results a b = b) := by
  refine ⟨?_, ?_, ?_⟩
  · intro h
    simp [merge_results, h]
  · intro h
    have h2 := LogScore.lt_asymm h
    simp [merge_results, h2]
  · intro h
    simp [merge_results, h, LogScore.lt_irrefl]

/-- Witness for the amended C5 at concrete inputs: equal scores keep the
second operand. -/
theorem merge_results_rule_witness :
    merge_results ⟨0, 0, some 3⟩ ⟨1, 0, some 3⟩ = ⟨1, 0, some 3⟩ :=
  (merge_results_rule ⟨0, 0, some 3⟩ ⟨1, 0, some 3⟩).2.2 rfl

/-- Claim C1: the partition protocol is NOT equivalent to the unsplit
search — the code drops every window straddling the row boundary `N/2`.
Failing input: `N = M = K = 2`, all-threes matrix.  The unsplit search finds
window `(0, 0)` with score `ln 81` (`= 4 · ln 3`), while each worker's block
has a single row (`< K`), so both partial results are sentinels and the
coordinated result has score `-INFINITY` (and coordinates `{0, -1}`, the
translated sentinel).  The spec's partition-equivalence property is the
evident intent (the program exists to find the best window of the whole
matrix); the missing boundary windows are a code bug. -/
theorem partition_equivalence_failure :
    find_best_submatrix_parallel exThreesMat 2 2 2 = ⟨0, 0, some 81⟩ ∧
    coordinator exThreesMat 2 2 2 = ⟨0, -1, none⟩ ∧
    (coordinator exThreesMat 2 2 2).max_log_product ≠
      (find_best_submatrix_parallel exThreesMat 2 2 2).max_log_product := by
  refine ⟨by decide, by decide, by decide⟩

/-- Claim C6 as stated is false on the code: with a `rand()` stream whose
first draw is 200 (entry `200 % 201 - 100 = 100`, even) and whose second
draw is divisible by 3, the odd-biasing `+= 1` produces the entry `101`,
outside `[MIN_VALUE, MAX_VALUE] = [-100, 100]`. -/
theorem generate_value_range_counterexample :
    generate_random_matrix exStream 1 1 = [[101]] ∧
    ¬(-100 ≤ (101 : ℤ) ∧ (101 : ℤ) ≤ 100) := by
  refine ⟨by decide, by decide⟩

/-- Claim C6 (amended): every entry of the matrix produced by
`generate_random_matrix` (after the odd-biasing increment) lies in
`[-100, 101]`: the draw lands in `[-100, 100]` and the increment, applied
only to even values, can at most raise an even `100` to `101`. -/
theorem generate_value_range (s : ℕ → ℕ) (N M : ℕ) :
    ∀ row ∈ generate_random_matrix s N M, ∀ v ∈ row, -100 ≤ v ∧ v ≤ 101 :=
  fun row hrow v hv => gen_rows_range s N M 0 row hrow v hv

/-- Witness for the amended C6 at a concrete input: the entry `101` produced
by the stream `exStream`. -/
theorem generate_value_range_witness : -100 ≤ (101 : ℤ) ∧ (101 : ℤ) ≤ 101 :=
  generate_value_range exStream 1 1 [101] (by decide) 101 (by decide)

/-- Claim C7: reproducibility.  `generate_random_matrix` is a pure function
of the `rand()` stream, and it consumes at most `2·N·M` draws: any two runs
whose streams agree on the first `2·N·M` values (as the C library guarantees
for two calls of `srand` with the same seed — `matrix_solver.c` fixes the
seed to 42) produce the identical matrix, entry for entry. -/
theorem generate_random_matrix_deterministic (s₁ s₂ : ℕ → ℕ) (N M : ℕ)
    (h : ∀ i, i < 2 * (N * M) → s₁ i = s₂ i) :
    generate_random_matrix s₁ N M = generate_random_matrix s₂ N M := by
  unfold generate_random_matrix
  rw [gen_rows_agree N M 0 (fun i h1 h2 => h i (by omega))]

/-- Witness for C7 at concrete inputs: two syntactically different streams
that agree on the consumed draws yield the same `1 × 1` matrix. -/
theorem generate_random_matrix_deterministic_witness :
    generate_random_matrix (fun _ => 0) 1 1 =
      generate_random_matrix (fun k => if k < 2 then 0 else 7) 1 1 :=
  generate_random_matrix_deterministic (fun _ => 0) (fun k => if k < 2 then 0 else 7) 1 1
    (fun i hi => (if_pos (show i < 2 by omega)).symm)
